import Mathlib

/-!
Shallow embedding of the `SpeechPlayer` class (src/unnamed/part_000) and
proofs of the specification's claims about it.

Bytes are naturals, `Uint8Array` values are lists of bytes, and times and
durations (seconds, `AudioContext.currentTime` / `AudioBuffer.duration`) are
rationals.  The asynchronous `decodeAudioData` call is modelled by passing its
outcome (success with a decoded duration, or failure) as a parameter to the
function embedding `processAudioContextQueue`.
-/

namespace SpeechPlayer

abbrev Byte := Nat

abbrev ByteBuf := List Byte

/-- Sync-word test from the scan loop of `processAudioContextQueue`:
`pendingBuffer[i] === 0xFF && (pendingBuffer[i + 1] & 0xE0) === 0xE0`. -/
def isSync (b : ByteBuf) (i : Nat) : Bool :=
  b.getD i 0 == 0xFF && (b.getD (i + 1) 0) &&& 0xE0 == 0xE0

/-- Backward scan loop `for (let i = ...; i >= 0; i--) { if (sync) break }`,
started at index `i` and running down to `0`; result `-1` when no index
matches, exactly like the `cutIndex` variable of the source. -/
def scanDown (b : ByteBuf) : Nat → Int
  | 0 => if isSync b 0 then 0 else -1
  | i + 1 => if isSync b (i + 1) then ((i + 1 : Nat) : Int) else scanDown b i

/-- Value of `cutIndex` computed by `processAudioContextQueue`: the loop starts
at `pendingBuffer.length - 2` and never runs when the buffer has fewer than two
bytes. -/
def findCutIndex (b : ByteBuf) : Int :=
  if b.length < 2 then -1 else scanDown b (b.length - 2)

/-- Synchronous split phase of `processAudioContextQueue`: when the buffer is
nonempty and `cutIndex > 0`, the pair `(dataToDecode, remaining)` obtained by
`slice(0, cutIndex)` and `slice(cutIndex)`; `pendingBuffer` is replaced by
`remaining` before the asynchronous decode starts.  Otherwise `none` and the
buffer is untouched. -/
def splitPhase (b : ByteBuf) : Option (ByteBuf × ByteBuf) :=
  if b.length = 0 then none
  else if 0 < findCutIndex b then
    some (b.take (findCutIndex b).toNat, b.drop (findCutIndex b).toNat)
  else none

/-- Result of `schedulePlayback`: the scheduled start time passed to
`source.start` and the advanced `nextStartTime` field. -/
structure SchedResult where
  start : ℚ
  nextStartTime : ℚ
deriving DecidableEq

/-- The `schedulePlayback` method: start at `nextStartTime`, pushed up to
`audioContext.currentTime` when that lies ahead, then advance the play head by
`buffer.duration`. -/
def schedulePlayback (nextStartTime now dur : ℚ) : SchedResult :=
  let start := if nextStartTime < now then now else nextStartTime
  { start := start, nextStartTime := start + dur }

/-- A sequence of successful schedules: fold `schedulePlayback` over a list of
`(currentTime, duration)` pairs, returning the final `nextStartTime`. -/
def runSchedules (nextStartTime : ℚ) : List (ℚ × ℚ) → ℚ
  | [] => nextStartTime
  | (now, dur) :: rest =>
    runSchedules (schedulePlayback nextStartTime now dur).nextStartTime rest

/-- Body of the `source.onended` handler registered by `schedulePlayback`: the
number of `onChunkEnd` invocations it performs, given the `pendingBuffer`,
`nextStartTime` and `audioContext.currentTime` it reads when the completion
event fires. -/
def onEndedFireCount (pending : ByteBuf) (nextStartTime now : ℚ) : Nat :=
  if pending.length = 0 ∧ |nextStartTime - now| < 1 / 10 then 1 else 0

/-- Outcome of the asynchronous `audioContext.decodeAudioData` promise. -/
inductive DecodeOutcome
  | success
  | failure
deriving DecidableEq

/-- Observable result of one full run of `processAudioContextQueue`: the final
`pendingBuffer`, the byte range submitted to the decoder (when a split
happened), the final `nextStartTime`, and whether the first-chunk `onPlaying`
callback fired. -/
structure ProcResult where
  pending : ByteBuf
  submitted : Option ByteBuf
  nextStartTime : ℚ
  onPlayingFired : Bool
deriving DecidableEq

/-- One full run of `processAudioContextQueue`.  The outcome of the
asynchronous decode and, on success, the wall clock `audioContext.currentTime`
and decoded `buffer.duration` at completion time are parameters.  On success
the source calls `schedulePlayback` and then fires `onPlaying` when the field
`nextStartTime` (already advanced by `schedulePlayback`) equals `0`; on
failure it builds `recovered = dataToDecode ++ pendingBuffer` and stores it
back, swallowing the exception. -/
def processAudioContextQueue (b : ByteBuf) (nextStartTime : ℚ)
    (oc : DecodeOutcome) (now dur : ℚ) : ProcResult :=
  match splitPhase b with
  | none => ⟨b, none, nextStartTime, false⟩
  | some (dataToDecode, remaining) =>
    match oc with
    | .success =>
      let r := schedulePlayback nextStartTime now dur
      ⟨remaining, some dataToDecode, r.nextStartTime, decide (r.nextStartTime = 0)⟩
    | .failure =>
      ⟨dataToDecode ++ remaining, some dataToDecode, nextStartTime, false⟩

/-- Events of a manual-decode session: a `feed(chunk)` call (which appends the
chunk with `newBuffer.set(pendingBuffer); newBuffer.set(chunk, ...)`), or a run
of `processAudioContextQueue` with a given decode outcome. -/
inductive Ev
  | feed (c : ByteBuf)
  | process (oc : DecodeOutcome) (now dur : ℚ)

/-- History of a manual-decode session: the live `pendingBuffer` and
`nextStartTime` fields, the ranges whose hand-off to the decoder completed (a
failed decode hands its range back, see `processAudioContextQueue`), and every
chunk ever fed. -/
structure TraceState where
  pending : ByteBuf
  submitted : List ByteBuf
  fed : List ByteBuf
  nextStartTime : ℚ

/-- One event applied to the session history. -/
def step (s : TraceState) : Ev → TraceState
  | .feed c =>
    { s with pending := s.pending ++ c, fed := s.fed ++ [c] }
  | .process oc now dur =>
    let r := processAudioContextQueue s.pending s.nextStartTime oc now dur
    { pending := r.pending
      nextStartTime := r.nextStartTime
      fed := s.fed
      submitted :=
        match oc, r.submitted with
        | .success, some d => s.submitted ++ [d]
        | _, _ => s.submitted }

/-- A session started on the freshly initialized state (`pendingBuffer` empty,
`nextStartTime = 0`, as set by `init`). -/
def runTrace (evs : List Ev) : TraceState :=
  evs.foldl step ⟨[], [], [], 0⟩

/-- Byte conservation: the decoder-bound ranges followed by the live buffer are
exactly the fed bytes, in order. -/
def Conserves (s : TraceState) : Prop :=
  s.submitted.flatten ++ s.pending = s.fed.flatten

/-- The `AudioContext.state` values the player inspects. -/
inductive ACState
  | suspended
  | running
  | closed
deriving DecidableEq

/-- Outcome of a `play()` or `pause()` call in AudioContext mode: the boolean
the promise resolves with, the `AudioContext` state afterwards, and whether the
corresponding `onPlaying` / `onPause` callback fired. -/
structure PlayResult where
  resolved : Bool
  state : ACState
  callbackFired : Bool
deriving DecidableEq

/-- The `play()` method in AudioContext (manual-decode) mode: resume a
suspended context, fire `onPlaying` and resolve `true`; otherwise resolve
`true` immediately with nothing changed. -/
def playAC (st : ACState) : PlayResult :=
  match st with
  | .suspended => ⟨true, .running, true⟩
  | st => ⟨true, st, false⟩

/-- The `pause()` method in AudioContext mode: suspend a running context, fire
`onPause` and resolve `true`; otherwise resolve `false` with nothing
changed. -/
def pauseAC (st : ACState) : PlayResult :=
  match st with
  | .running => ⟨true, .suspended, true⟩
  | st => ⟨false, st, false⟩

/-- The `paused` getter in AudioContext mode:
`state === 'suspended' || state === 'closed'`. -/
def pausedAC (st : ACState) : Bool :=
  st == .suspended || st == .closed

/-- The `play()` method in MediaSource mode, as a function of `audio.paused`:
the boolean the promise resolves with and `audio.paused` afterwards. -/
def playMSE (audioPaused : Bool) : Bool × Bool :=
  if audioPaused then (true, false) else (false, audioPaused)

/-- The `pause()` method in MediaSource mode, as a function of
`audio.paused`. -/
def pauseMSE (audioPaused : Bool) : Bool × Bool :=
  if !audioPaused then (true, true) else (false, audioPaused)

/-- The two errors `feed` can throw: the `ReferenceError` for a destroyed
instance and the `Error` for a MediaSource that has not opened yet. -/
inductive FeedError
  | useAfterDestroy
  | notReady
deriving DecidableEq

/-- Fields of a `SpeechPlayer` instance read or written by `feed` and
`init`. -/
structure PlayerState where
  destroyed : Bool
  useAudioContext : Bool
  mediaSourceOpened : Bool
  pendingBuffer : ByteBuf
  sourceBufferCache : List ByteBuf
  sourceBufferUpdating : Bool
  nextStartTime : ℚ
deriving DecidableEq

/-- The `feed(chunk)` method up to its synchronous state changes: throw on a
destroyed instance; in AudioContext mode append the chunk to `pendingBuffer`
(the triggered `processAudioContextQueue` run is modelled separately); in
MediaSource mode throw when the source has not opened, otherwise push the
chunk onto `sourceBufferCache` and, when the source buffer is idle, shift the
oldest cached chunk into `appendBuffer`. -/
def feed (s : PlayerState) (chunk : ByteBuf) : Except FeedError PlayerState :=
  if s.destroyed then .error .useAfterDestroy
  else if s.useAudioContext then
    .ok { s with pendingBuffer := s.pendingBuffer ++ chunk }
  else if !s.mediaSourceOpened then .error .notReady
  else
    let cache := s.sourceBufferCache ++ [chunk]
    if !s.sourceBufferUpdating then
      .ok { s with sourceBufferCache := cache.tail, sourceBufferUpdating := true }
    else
      .ok { s with sourceBufferCache := cache }

/-- The `init()` method: clear the `destroyed` flag first; `mseSupported` is
the probe `typeof MediaSource !== 'undefined' &&
MediaSource.isTypeSupported(mimeType)`.  When supported, keep MediaSource mode
and start the source-open handshake; otherwise fall back to AudioContext mode
and reset `nextStartTime` and `pendingBuffer`. -/
def init (s : PlayerState) (mseSupported : Bool) : PlayerState :=
  let s1 : PlayerState := { s with destroyed := false }
  if mseSupported then { s1 with useAudioContext := false }
  else { s1 with useAudioContext := true, nextStartTime := 0, pendingBuffer := [] }

/-- Fields of the MediaSource pipeline read by the `updateend` and `waiting`
handlers installed in `sourceOpenHandle`.  `timerArmed` records a pending stall
timer (the 500ms `setTimeout` armed by `waiting`), `readyStateOpen` the check
`mediaSource.readyState === 'open'`, and `streamEnded` whether
`mediaSource.endOfStream()` has run. -/
structure MSEState where
  updating : Bool
  readyStateOpen : Bool
  cache : List ByteBuf
  timerArmed : Bool
  audioPaused : Bool
  streamEnded : Bool
deriving DecidableEq

/-- The `waiting` handler: arm the 500ms stall timer. -/
def waitingHandle (s : MSEState) : MSEState :=
  { s with timerArmed := true }

/-- The `updateend` handler: cancel any pending stall timer
(`timer && clearTimeout(timer)`), resume a paused audio element, and when the
source buffer is idle and the cache nonempty, shift the oldest cached chunk
into `appendBuffer`. -/
def updateendHandle (s : MSEState) : MSEState :=
  let s1 : MSEState := { s with timerArmed := false, audioPaused := false }
  if !s1.updating && !s1.cache.isEmpty then
    { s1 with cache := s1.cache.tail, updating := true }
  else s1

/-- The stall-timer callback armed by `waiting`, firing 500ms later: when the
source buffer is idle, the MediaSource is still open and the cache is empty,
seal the stream with `endOfStream()` (its `readyState` leaves `open`) and fire
`onChunkEnd`.  A timer that was cancelled (not armed) never fires.  Returns the
state afterwards and whether `onChunkEnd` fired. -/
def stallTimerFire (s : MSEState) : MSEState × Bool :=
  if s.timerArmed then
    if !s.updating && s.readyStateOpen && s.cache.isEmpty then
      ({ s with timerArmed := false, streamEnded := true, readyStateOpen := false },
        true)
    else ({ s with timerArmed := false }, false)
  else (s, false)

/-! Helper lemmas. -/

theorem scanDown_cases (b : ByteBuf) (i : Nat) :
    (scanDown b i = -1 ∧ ∀ j, j ≤ i → isSync b j = false) ∨
    (∃ k, k ≤ i ∧ scanDown b i = (k : Int) ∧ isSync b k = true ∧
      ∀ j, k < j → j ≤ i → isSync b j = false) := by
  induction i with
  | zero =>
    cases hb : isSync b 0 with
    | false =>
      left
      refine ⟨by simp [scanDown, hb], ?_⟩
      intro j hj
      rw [Nat.le_zero.mp hj]
      exact hb
    | true =>
      right
      exact ⟨0, le_rfl, by simp [scanDown, hb], hb,
        fun j h1 h2 => absurd (Nat.lt_of_lt_of_le h1 h2) (Nat.lt_irrefl 0)⟩
  | succ i ih =>
    cases hb : isSync b (i + 1) with
    | true =>
      right
      exact ⟨i + 1, le_rfl, by simp [scanDown, hb], hb,
        fun j h1 h2 => absurd (Nat.lt_of_lt_of_le h1 h2) (Nat.lt_irrefl _)⟩
    | false =>
      have hstep : scanDown b (i + 1) = scanDown b i := by simp [scanDown, hb]
      rcases ih with ⟨h1, h2⟩ | ⟨k, hk, hsk, hsync, hmax⟩
      · left
        refine ⟨hstep.trans h1, ?_⟩
        intro j hj
        by_cases hji : j ≤ i
        · exact h2 j hji
        · have hj1 : j = i + 1 := by omega
          rw [hj1]; exact hb
      · right
        refine ⟨k, Nat.le_succ_of_le hk, hstep.trans hsk, hsync, ?_⟩
        intro j hkj hji
        by_cases hji2 : j ≤ i
        · exact hmax j hkj hji2
        · have hj1 : j = i + 1 := by omega
          rw [hj1]; exact hb

theorem findCutIndex_cases (b : ByteBuf) :
    (findCutIndex b = -1 ∧ ∀ j, j + 2 ≤ b.length → isSync b j = false) ∨
    (∃ k, k + 2 ≤ b.length ∧ findCutIndex b = (k : Int) ∧ isSync b k = true ∧
      ∀ j, k < j → j + 2 ≤ b.length → isSync b j = false) := by
  by_cases hlen : b.length < 2
  · left
    exact ⟨by simp [findCutIndex, hlen], fun j hj => absurd hj (by omega)⟩
  · have hfc : findCutIndex b = scanDown b (b.length - 2) := by
      simp [findCutIndex, hlen]
    rcases scanDown_cases b (b.length - 2) with ⟨h1, h2⟩ | ⟨k, hk, hsk, hsync, hmax⟩
    · left
      exact ⟨hfc.trans h1, fun j hj => h2 j (by omega)⟩
    · right
      exact ⟨k, by omega, hfc.trans hsk, hsync, fun j h1 h2 => hmax j h1 (by omega)⟩

theorem splitPhase_append (b d r : ByteBuf) (h : splitPhase b = some (d, r)) :
    d ++ r = b := by
  by_cases h0 : b.length = 0
  · simp [splitPhase, h0] at h
  · by_cases h1 : 0 < findCutIndex b
    · simp only [splitPhase, h0, if_neg, if_pos h1, ite_false, Option.some.injEq,
        Prod.mk.injEq, if_false] at h
      rw [← h.1, ← h.2]
      exact List.take_append_drop _ b
    · simp [splitPhase, h0, h1] at h

theorem splitPhase_none_of_nonpos (b : ByteBuf) (h : findCutIndex b ≤ 0) :
    splitPhase b = none := by
  by_cases h0 : b.length = 0
  · simp [splitPhase, h0]
  · simp [splitPhase, h0, show ¬0 < findCutIndex b by omega]

theorem process_of_split_none (b : ByteBuf) (nst now dur : ℚ) (oc : DecodeOutcome)
    (h : splitPhase b = none) :
    processAudioContextQueue b nst oc now dur = ⟨b, none, nst, false⟩ := by
  unfold processAudioContextQueue
  rw [h]

theorem process_of_split_success (b d r : ByteBuf) (nst now dur : ℚ)
    (h : splitPhase b = some (d, r)) :
    processAudioContextQueue b nst DecodeOutcome.success now dur =
      ⟨r, some d, (schedulePlayback nst now dur).nextStartTime,
        decide ((schedulePlayback nst now dur).nextStartTime = 0)⟩ := by
  unfold processAudioContextQueue
  rw [h]

theorem process_of_split_failure (b d r : ByteBuf) (nst now dur : ℚ)
    (h : splitPhase b = some (d, r)) :
    processAudioContextQueue b nst DecodeOutcome.failure now dur =
      ⟨d ++ r, some d, nst, false⟩ := by
  unfold processAudioContextQueue
  rw [h]

theorem conserves_step (s : TraceState) (e : Ev) (hs : Conserves s) :
    Conserves (step s e) := by
  cases e with
  | feed c =>
    show s.submitted.flatten ++ (s.pending ++ c) = (s.fed ++ [c]).flatten
    rw [List.flatten_append, ← List.append_assoc, hs]
    simp
  | process oc now dur =>
    rcases hsp : splitPhase s.pending with _ | ⟨d, r⟩
    · have hp := process_of_split_none s.pending s.nextStartTime now dur oc hsp
      cases oc <;> simp only [step, hp] <;> exact hs
    · have hdr : d ++ r = s.pending := splitPhase_append _ _ _ hsp
      cases oc with
      | success =>
        have hp := process_of_split_success s.pending d r s.nextStartTime now dur hsp
        simp only [step, hp]
        show (s.submitted ++ [d]).flatten ++ r = s.fed.flatten
        rw [List.flatten_append]
        simp only [List.flatten_cons, List.flatten_nil, List.append_nil]
        rw [List.append_assoc, hdr]
        exact hs
      | failure =>
        have hp := process_of_split_failure s.pending d r s.nextStartTime now dur hsp
        simp only [step, hp]
        show s.submitted.flatten ++ (d ++ r) = s.fed.flatten
        rw [hdr]
        exact hs

theorem conserves_foldl (s : TraceState) (hs : Conserves s) (evs : List Ev) :
    Conserves (evs.foldl step s) := by
  induction evs generalizing s with
  | nil => exact hs
  | cons e t ih => exact ih _ (conserves_step s e hs)

theorem schedulePlayback_start_eq (nst now dur : ℚ) :
    (schedulePlayback nst now dur).start = max nst now := by
  unfold schedulePlayback
  by_cases h : nst < now
  · simp [h, max_eq_right h.le]
  · simp [h, max_eq_left (not_lt.mp h)]

theorem schedulePlayback_next_eq (nst now dur : ℚ) :
    (schedulePlayback nst now dur).nextStartTime = max nst now + dur := by
  unfold schedulePlayback
  by_cases h : nst < now
  · simp [h, max_eq_right h.le]
  · simp [h, max_eq_left (not_lt.mp h)]

theorem schedulePlayback_next_ge (nst now dur : ℚ) (h : 0 ≤ dur) :
    nst ≤ (schedulePlayback nst now dur).nextStartTime := by
  rw [schedulePlayback_next_eq]
  have h2 : nst ≤ max nst now := le_max_left _ _
  linarith

theorem runSchedules_mono (l : List (ℚ × ℚ)) :
    ∀ nst : ℚ, (∀ p ∈ l, 0 ≤ p.2) → nst ≤ runSchedules nst l := by
  induction l with
  | nil => intro nst _; exact le_refl nst
  | cons p rest ih =>
    intro nst h
    obtain ⟨now, dur⟩ := p
    have h1 : 0 ≤ dur := h (now, dur) (List.mem_cons_self _ _)
    have h2 : nst ≤ (schedulePlayback nst now dur).nextStartTime :=
      schedulePlayback_next_ge nst now dur h1
    have h3 := ih (schedulePlayback nst now dur).nextStartTime
      (fun q hq => h q (List.mem_cons_of_mem _ hq))
    exact le_trans h2 h3

/-! Claim theorems. -/

/-- C1: in ManualDecode mode, over any sequence of `feed` calls and completed
`processAudioContextQueue` runs, the byte ranges handed to the decoder (in
submission order) followed by the final `pendingBuffer` are exactly the bytes
ever fed, in order; and every split cuts the buffer into a decode range and a
remainder whose concatenation is the original buffer, the remainder being the
`pendingBuffer` in place when the asynchronous decode starts. -/
theorem feed_split_roundtrip (evs : List Ev) (b d r : ByteBuf)
    (h : splitPhase b = some (d, r)) :
    (runTrace evs).submitted.flatten ++ (runTrace evs).pending =
        (runTrace evs).fed.flatten ∧
    d ++ r = b ∧
    ∀ nst now dur : ℚ,
      (processAudioContextQueue b nst DecodeOutcome.success now dur).pending = r ∧
      (processAudioContextQueue b nst DecodeOutcome.success now dur).submitted =
        some d := by
  refine ⟨conserves_foldl ⟨[], [], [], 0⟩ rfl evs, splitPhase_append b d r h, ?_⟩
  intro nst now dur
  rw [process_of_split_success b d r nst now dur h]
  exact ⟨rfl, rfl⟩

/-- Witness for C1 at the concrete session that feeds `[0x11, 0xFF, 0xE0]` and
runs one successful decode; the split of that buffer is at index 1. -/
theorem feed_split_roundtrip_witness :
    (runTrace [Ev.feed [17, 255, 224], Ev.process DecodeOutcome.success 0 1]).submitted.flatten ++
        (runTrace [Ev.feed [17, 255, 224], Ev.process DecodeOutcome.success 0 1]).pending =
      (runTrace [Ev.feed [17, 255, 224], Ev.process DecodeOutcome.success 0 1]).fed.flatten ∧
    [17] ++ [255, 224] = [17, 255, 224] ∧
    ∀ nst now dur : ℚ,
      (processAudioContextQueue [17, 255, 224] nst DecodeOutcome.success now dur).pending =
        [255, 224] ∧
      (processAudioContextQueue [17, 255, 224] nst DecodeOutcome.success now dur).submitted =
        some [17] :=
  feed_split_roundtrip [Ev.feed [17, 255, 224], Ev.process DecodeOutcome.success 0 1]
    [17, 255, 224] [17] [255, 224] rfl

/-- C2: the scan of `processAudioContextQueue` selects the largest index `i`
with `i + 2 ≤ length b` whose two bytes match the sync pattern `0xFF` /
`0xE0`-masked; when no index matches it returns `-1`; and whenever the result
is not positive (no match, or a match only at index 0), the buffer is left
unchanged and nothing is submitted to the decoder. -/
theorem frame_scan_selects_last_sync (b : ByteBuf) :
    (∀ k : Nat, findCutIndex b = (k : Int) →
      isSync b k = true ∧ k + 2 ≤ b.length ∧
        ∀ j, k < j → j + 2 ≤ b.length → isSync b j = false) ∧
    ((∀ j, j + 2 ≤ b.length → isSync b j = false) → findCutIndex b = -1) ∧
    (findCutIndex b ≤ 0 → ∀ (nst : ℚ) (oc : DecodeOutcome) (now dur : ℚ),
      (processAudioContextQueue b nst oc now dur).pending = b ∧
      (processAudioContextQueue b nst oc now dur).submitted = none) := by
  refine ⟨?_, ?_, ?_⟩
  · intro k hk
    rcases findCutIndex_cases b with ⟨h1, _⟩ | ⟨k2, hlen2, hfc, hsync, hmax⟩
    · exact absurd (h1.symm.trans hk) (by omega)
    · have hkk : k2 = k := by
        have h2 := hfc.symm.trans hk
        exact_mod_cast h2
      subst hkk
      exact ⟨hsync, hlen2, hmax⟩
  · intro hall
    rcases findCutIndex_cases b with ⟨h1, _⟩ | ⟨k, hlen2, hfc, hsync, _⟩
    · exact h1
    · rw [hall k hlen2] at hsync
      exact absurd hsync (by simp)
  · intro hle nst oc now dur
    rw [process_of_split_none b nst now dur oc (splitPhase_none_of_nonpos b hle)]
    exact ⟨rfl, rfl⟩

/-- C3: `schedulePlayback` starts the segment at
`max(nextStartTime, currentTime)`, advances `nextStartTime` to that start plus
the duration, and for a non-negative duration this never decreases
`nextStartTime`; hence `nextStartTime` is non-decreasing across any sequence of
successful schedules with non-negative durations. -/
theorem schedulePlayback_monotone (nst now dur : ℚ) (l : List (ℚ × ℚ))
    (hdur : 0 ≤ dur) (hl : ∀ p ∈ l, 0 ≤ p.2) :
    (schedulePlayback nst now dur).start = max nst now ∧
    (schedulePlayback nst now dur).nextStartTime = max nst now + dur ∧
    nst ≤ (schedulePlayback nst now dur).nextStartTime ∧
    nst ≤ runSchedules nst l :=
  ⟨schedulePlayback_start_eq nst now dur, schedulePlayback_next_eq nst now dur,
    schedulePlayback_next_ge nst now dur hdur, runSchedules_mono l nst hl⟩

/-- Witness for C3 at `nextStartTime = 0`, `currentTime = 2`, duration 1, and
the schedule sequence `[(2, 1), (0, 3)]`. -/
theorem schedulePlayback_monotone_witness :
    (0:ℚ) ≤ 1 ∧ (∀ p ∈ [((2:ℚ), (1:ℚ)), (0, 3)], 0 ≤ p.2) ∧
    ((schedulePlayback 0 2 1).start = max 0 2 ∧
     (schedulePlayback 0 2 1).nextStartTime = max 0 2 + 1 ∧
     (0:ℚ) ≤ (schedulePlayback 0 2 1).nextStartTime ∧
     (0:ℚ) ≤ runSchedules 0 [(2, 1), (0, 3)]) :=
  ⟨by norm_num, by norm_num,
    schedulePlayback_monotone 0 2 1 [(2, 1), (0, 3)] (by norm_num) (by norm_num)⟩

/-- C4 (code bug witness): a first successful decode on the fresh play head.
The buffer `[0x11, 0xFF, 0xE0]` splits at index 1 and `[0x11]` is submitted;
the decode completes with `nextStartTime = 0`, `currentTime = 0` and duration
1 second, yet `onPlaying` does not fire, because the source tests
`nextStartTime === 0` only after `schedulePlayback` has already advanced it to
`start + duration = 1`. -/
theorem first_segment_onPlaying_skipped :
    (processAudioContextQueue [17, 255, 224] 0 DecodeOutcome.success 0 1).submitted =
        some [17] ∧
    (processAudioContextQueue [17, 255, 224] 0 DecodeOutcome.success 0 1).nextStartTime =
        1 ∧
    (processAudioContextQueue [17, 255, 224] 0 DecodeOutcome.success 0 1).onPlayingFired =
        false := by
  rw [process_of_split_success [17, 255, 224] [17] [255, 224] 0 0 1 rfl]
  refine ⟨rfl, ?_, ?_⟩
  · rw [schedulePlayback_next_eq]; norm_num
  · rw [schedulePlayback_next_eq]; norm_num

/-- C5 counterexample: a ManualDecode instance whose `AudioContext` is running
is playing (`paused` is false), yet `play()` resolves `true`, not `false` as
the claim states for both modes. -/
theorem play_on_playing_resolves_true :
    pausedAC ACState.running = false ∧
    (playAC ACState.running).resolved ≠ false := by
  decide

/-- C5 as amended: `pause()` on an already-paused instance resolves `false`
with no state change and no callback in both modes, and `play()` on an
already-playing instance is a state-preserving no-op in both modes — but it
resolves `false` only in MediaSource mode; in AudioContext (ManualDecode) mode
it resolves `true`. -/
theorem play_pause_idempotent (st st2 : ACState)
    (h1 : pausedAC st = false) (h2 : pausedAC st2 = true) :
    (playAC st).resolved = true ∧ (playAC st).state = st ∧
      (playAC st).callbackFired = false ∧
    (pauseAC st2).resolved = false ∧ (pauseAC st2).state = st2 ∧
      (pauseAC st2).callbackFired = false ∧
    playMSE false = (false, false) ∧ pauseMSE true = (false, true) := by
  cases st <;> cases st2 <;> revert h1 h2 <;> decide

/-- Witness for C5 amended at a running context and a suspended context. -/
theorem play_pause_idempotent_witness :
    pausedAC ACState.running = false ∧ pausedAC ACState.suspended = true ∧
    ((playAC ACState.running).resolved = true ∧
      (playAC ACState.running).state = ACState.running ∧
      (playAC ACState.running).callbackFired = false ∧
    (pauseAC ACState.suspended).resolved = false ∧
      (pauseAC ACState.suspended).state = ACState.suspended ∧
      (pauseAC ACState.suspended).callbackFired = false ∧
    playMSE false = (false, false) ∧ pauseMSE true = (false, true)) :=
  ⟨by decide, by decide,
    play_pause_idempotent ACState.running ACState.suspended (by decide) (by decide)⟩

/-- C6: a failed decode restores `pendingBuffer` to exactly the bytes it held
before the split (the attempted range is prepended back in original order),
fires no `onPlaying`, and leaves `nextStartTime` untouched; the exception is
swallowed inside `processAudioContextQueue` and never reaches the caller of
`feed`, which the total (non-`Except`) return type of the model reflects. -/
theorem decode_failure_restores_buffer (b : ByteBuf) (nst now dur : ℚ) :
    (processAudioContextQueue b nst DecodeOutcome.failure now dur).pending = b ∧
    (processAudioContextQueue b nst DecodeOutcome.failure now dur).onPlayingFired =
        false ∧
    (processAudioContextQueue b nst DecodeOutcome.failure now dur).nextStartTime =
        nst := by
  rcases hsp : splitPhase b with _ | ⟨d, r⟩
  · rw [process_of_split_none b nst now dur DecodeOutcome.failure hsp]
    exact ⟨rfl, rfl, rfl⟩
  · rw [process_of_split_failure b d r nst now dur hsp]
    exact ⟨splitPhase_append b d r hsp, rfl, rfl⟩

/-- C7: `feed` throws the use-after-destroy error exactly on a destroyed
instance (checked first, in both modes), throws the not-ready error exactly on
a live MediaSource-mode instance whose source has not opened, throws nothing
else, and on a live AudioContext-mode (ManualDecode) instance always
succeeds. -/
theorem feed_error_conditions (s : PlayerState) (c : ByteBuf) :
    (feed s c = .error FeedError.useAfterDestroy ↔ s.destroyed = true) ∧
    (feed s c = .error FeedError.notReady ↔
      s.destroyed = false ∧ s.useAudioContext = false ∧
        s.mediaSourceOpened = false) ∧
    ((∃ e, feed s c = .error e) ↔
      s.destroyed = true ∨
        s.useAudioContext = false ∧ s.mediaSourceOpened = false) ∧
    (s.destroyed = false → s.useAudioContext = true →
      ∃ t, feed s c = .ok t) := by
  obtain ⟨d, uac, mso, pb, sbc, sbu, nst⟩ := s
  cases d <;> cases uac <;> cases mso <;> cases sbu <;>
    simp [feed]

/-- C8: the `onended` handler fires `onChunkEnd` exactly once when it finds
`pendingBuffer` empty and `nextStartTime` within 0.1 seconds of
`audioContext.currentTime`, and does not fire it at all otherwise; this is the
only end-of-stream detector of the manual-decode pipeline. -/
theorem onended_stream_end_condition (p : ByteBuf) (nst now : ℚ) :
    (onEndedFireCount p nst now = 1 ↔ p = [] ∧ |nst - now| < 1 / 10) ∧
    (onEndedFireCount p nst now = 0 ↔ ¬(p = [] ∧ |nst - now| < 1 / 10)) := by
  have hiff : (p.length = 0 ∧ |nst - now| < 1 / 10) ↔
      (p = [] ∧ |nst - now| < 1 / 10) := by
    rw [List.length_eq_zero]
  by_cases h : p = [] ∧ |nst - now| < 1 / 10
  · rw [onEndedFireCount, if_pos (hiff.mpr h)]
    exact ⟨⟨fun _ => h, fun _ => rfl⟩,
      ⟨fun h10 => absurd h10 (by decide), fun hn => absurd h hn⟩⟩
  · rw [onEndedFireCount, if_neg (fun hc => h (hiff.mp hc))]
    exact ⟨⟨fun h01 => absurd h01 (by decide), fun hc => absurd hc h⟩,
      ⟨fun _ => h, fun _ => rfl⟩⟩

/-- C9: with the stall timer armed by the `waiting` handler, its 500ms
callback seals the stream and fires `onChunkEnd` exactly when the source
buffer is not mid-write, the MediaSource is still open and the chunk cache is
empty; firing implies `endOfStream` ran; and an `updateend` before the timer
fires cancels it, so a cancelled timer never fires. -/
theorem stall_timer_seal (s : MSEState) (h : s.timerArmed = true) :
    ((stallTimerFire s).2 = true ↔
      s.updating = false ∧ s.readyStateOpen = true ∧ s.cache = []) ∧
    ((stallTimerFire s).2 = true → (stallTimerFire s).1.streamEnded = true) ∧
    (updateendHandle s).timerArmed = false ∧
    (stallTimerFire (updateendHandle s)).2 = false ∧
    (waitingHandle s).timerArmed = true := by
  obtain ⟨upd, rso, cache, ta, ap, se⟩ := s
  simp only at h
  subst h
  cases upd <;> cases rso <;> rcases cache with _ | ⟨c0, crest⟩ <;>
    simp [stallTimerFire, updateendHandle, waitingHandle]

/-- Witness for C9 at an armed timer over an idle, open, drained pipeline. -/
theorem stall_timer_seal_witness :
    (stallTimerFire ⟨false, true, [], true, false, false⟩).2 = true :=
  ((stall_timer_seal ⟨false, true, [], true, false, false⟩ rfl).1).mpr
    ⟨rfl, rfl, rfl⟩

/-- C10: on a destroyed instance `feed` throws use-after-destroy, but `init`
clears the `destroyed` flag again in either mode (and with the AudioContext
fallback also resets `nextStartTime` to 0 and `pendingBuffer` to empty), after
which `feed` on that same instance no longer throws use-after-destroy and in
ManualDecode mode succeeds outright: destruction is not terminal for the
object itself. -/
theorem init_revives (s : PlayerState) (c : ByteBuf) (h : s.destroyed = true) :
    feed s c = .error FeedError.useAfterDestroy ∧
    (∀ ms : Bool, (init s ms).destroyed = false) ∧
    (∀ ms : Bool, feed (init s ms) c ≠ .error FeedError.useAfterDestroy) ∧
    (init s false).useAudioContext = true ∧
    (init s false).nextStartTime = 0 ∧
    (init s false).pendingBuffer = [] ∧
    ∃ t, feed (init s false) c = .ok t := by
  obtain ⟨d, uac, mso, pb, sbc, sbu, nst⟩ := s
  simp only at h
  subst h
  refine ⟨by simp [feed], fun ms => by cases ms <;> simp [init], ?_,
    by simp [init], by simp [init], by simp [init], ?_⟩
  · intro ms
    cases ms <;> cases uac <;> cases mso <;> cases sbu <;> simp [feed, init]
  · refine ⟨⟨false, true, mso, c, sbc, sbu, 0⟩, ?_⟩
    simp [feed, init]

/-- Witness for C10 at a concrete destroyed ManualDecode instance. -/
theorem init_revives_witness :
    (init ⟨true, true, false, [3, 4], [], false, 5⟩ false).destroyed = false ∧
    (init ⟨true, true, false, [3, 4], [], false, 5⟩ false).pendingBuffer = [] :=
  ⟨(init_revives ⟨true, true, false, [3, 4], [], false, 5⟩ [1] rfl).2.1 false,
    (init_revives ⟨true, true, false, [3, 4], [], false, 5⟩ [1] rfl).2.2.2.2.2.1⟩

end SpeechPlayer
